import Mathlib

/-!
Verification of the silence-removal core.

Shallow embedding of the algorithmic core shared by
`audio_silence_remover.py` and `video_silence_remover.py`:

* the silence-event parser (the regex scan over ffmpeg's stderr lines),
* the pairing/margin stage producing the latest-first interval list,
* the excision planner (kept head/tail segments), and
* the destructive edit step `remove_silence_segment` with its
  copy/engine-invoke/rename file-system effects.

Python floats are modelled as rationals (`ℚ`): the only operations the
scripts perform on timestamps are addition, subtraction and comparison
of decimal values printed by the detector, which `ℚ` models exactly.
Character-level string scanning is modelled on `List Char`; file names
are `String`s.  External engine invocations (`ffmpeg`, `ffprobe`) are
parameters recording the outcome of the single invocation a function
performs.
-/

namespace SilenceRemover

/-- The `[0-9.]` character class of the extraction regexes
`silence_start:\s*([0-9.]+)` and `silence_end:\s*([0-9.]+)`. -/
def isDigitOrDot (c : Char) : Bool := c.isDigit || c == '.'

/-- Python's regex `\s` whitespace class (the ASCII part, which is all
that can occur in ffmpeg diagnostic output). -/
def isPySpace (c : Char) : Bool :=
  c == ' ' || c == '\t' || c == '\n' || c == '\r' || c == '\x0b' || c == '\x0c'

/-- Python's substring test `needle in haystack`. -/
def contains_sub (needle : List Char) : List Char → Bool
  | [] => needle.isEmpty
  | c :: cs => needle.isPrefixOf (c :: cs) || contains_sub needle cs

/-- Model of `re.search(marker + r"\s*([0-9.]+)", line)` for a literal `marker`:
scan left to right for an occurrence of `marker` that is followed, after
the greedy `\s*`, by a nonempty run of `[0-9.]`, and return that run
(capture group 1).  Backtracking on `\s*` can never rescue a failed
position, because a whitespace character is not in `[0-9.]`, so the
regex's leftmost-match semantics collapse to this scan. -/
def re_search_num (marker : List Char) : List Char → Option (List Char)
  | [] => none
  | c :: cs =>
    if marker.isPrefixOf (c :: cs) then
      let tok := (((c :: cs).drop marker.length).dropWhile isPySpace).takeWhile isDigitOrDot
      if tok.isEmpty then re_search_num marker cs else some tok
    else re_search_num marker cs

/-- Digits read as a base-10 natural number. -/
def natVal (cs : List Char) : ℕ := cs.foldl (fun a c => 10 * a + (c.toNat - 48)) 0

/-- Python `float()` restricted to tokens drawn from `[0-9.]+` — the only
strings capture group 1 of the extraction regex can produce.  On that
domain `float` succeeds iff the token contains at most one dot and at
least one digit, returning its decimal value; otherwise (`"1.2.3"`,
`"."`, …) it raises `ValueError`, modelled as `none`. -/
def pyFloat (cs : List Char) : Option ℚ :=
  if cs.count '.' ≤ 1 ∧ cs.any Char.isDigit = true then
    some ((natVal (cs.takeWhile (fun c => c != '.')) : ℚ) +
      (natVal ((cs.dropWhile (fun c => c != '.')).drop 1) : ℚ) /
        (10 : ℚ) ^ ((cs.dropWhile (fun c => c != '.')).drop 1).length)
  else none

def silence_start_marker : List Char := "silence_start:".toList

def silence_end_marker : List Char := "silence_end:".toList

/-- One iteration of the parsing loop of `detect_silence_intervals`
(`audio_silence_remover.py` lines 85–93, `video_silence_remover.py`
lines 72–80): on each stderr line, each marker's presence is tested with
Python `in`; on a regex match the captured token is converted with
`float` — whose `ValueError` propagates out of the whole function,
modelled as `Except.error ()` — and appended to the corresponding
accumulator. -/
def process_line (acc : List ℚ × List ℚ) (line : List Char) :
    Except Unit (List ℚ × List ℚ) := do
  let acc₁ ←
    if contains_sub silence_start_marker line then
      match re_search_num silence_start_marker line with
      | some tok =>
        match pyFloat tok with
        | some x => pure (acc.1 ++ [x], acc.2)
        | none => throw ()
      | none => pure acc
    else pure acc
  if contains_sub silence_end_marker line then
    match re_search_num silence_end_marker line with
    | some tok =>
      match pyFloat tok with
      | some x => pure (acc₁.1, acc₁.2 ++ [x])
      | none => throw ()
    | none => pure acc₁
  else pure acc₁

/-- The Silence Event Parser: fold `process_line` over the engine's
stderr lines, accumulating the `silence_starts` and `silence_ends`
sequences in emission order. -/
def parse_silence_lines (lines : List (List Char)) :
    Except Unit (List ℚ × List ℚ) :=
  lines.foldlM process_line ([], [])

/-- The pairing/margin loop of `detect_silence_intervals`
(`audio_silence_remover.py` lines 96–100, `video_silence_remover.py`
lines 83–86): `for start, end in zip(reversed(starts), reversed(ends)):
if start != 0: start += margin; intervals.append((start, end))`. -/
def pair_loop (margin : ℚ) : List (ℚ × ℚ) → List (ℚ × ℚ)
  | [] => []
  | (s, e) :: rest => (if s ≠ 0 then s + margin else s, e) :: pair_loop margin rest

/-- The Interval Normalizer: pair the reversed start and end sequences
positionally and apply the margin policy
(`audio_silence_remover.py` lines 94–101). -/
def normalize_intervals (starts ends : List ℚ) (margin : ℚ) : List (ℚ × ℚ) :=
  pair_loop margin (starts.reverse.zip ends.reverse)

/-- The pure content of `detect_silence_intervals` downstream of the
engine call: parse the stderr lines, then pair and normalize. -/
def detect_silence_intervals (stderrLines : List (List Char)) (margin : ℚ) :
    Except Unit (List (ℚ × ℚ)) :=
  (parse_silence_lines stderrLines).map fun p => normalize_intervals p.1 p.2 margin

/-- Threshold normalization `noise_param = noise if noise.endswith("dB") else noise + "dB"`
(`audio_silence_remover.py` line 71, `video_silence_remover.py`
line 60). -/
def noise_param (noise : List Char) : List Char :=
  if ("dB".toList).isSuffixOf noise then noise else noise ++ "dB".toList

/-- The Excision Planner: the kept segments computed by
`remove_silence_segment` (`audio_silence_remover.py` lines 116–126) and
`remove_silence_segment_video` (`video_silence_remover.py` lines
98–115): a head segment `(0, start)` when `start > 0`, then a tail
segment `(end, total_duration)` when `end < total_duration`. -/
def plan_segments (start e total_duration : ℚ) : List (ℚ × ℚ) :=
  (if 0 < start then [((0 : ℚ), start)] else []) ++
  (if e < total_duration then [(e, total_duration)] else [])

/-- Total length of the kept segments of a plan. -/
def sum_kept (segs : List (ℚ × ℚ)) : ℚ := (segs.map fun p => p.2 - p.1).sum

/-- A file system: file names to contents; `none` means the file is
absent.  Contents are abstract (`α`). -/
abbrev FS (α : Type) := String → Option α

/-- Update one file of a file system. -/
def fs_set {α : Type} (fs : FS α) (n : String) (c : Option α) : FS α :=
  fun m => if m = n then c else fs m

/-- Model of `os.replace(src, dst)`: atomic rename over `dst`; raises if `src` is
absent.  A raised exception (`Except.error`) carries the file system as
it stands at raise time. -/
def os_replace {α : Type} (fs : FS α) (src dst : String) : Except (FS α) (FS α) :=
  match fs src with
  | none => Except.error fs
  | some c => Except.ok (fs_set (fs_set fs dst (some c)) src none)

/-- Model of `shutil.copy(src, dst)`: duplicate `src` at `dst`; raises if `src`
is absent. -/
def shutil_copy {α : Type} (fs : FS α) (src dst : String) : Except (FS α) (FS α) :=
  match fs src with
  | none => Except.error fs
  | some c => Except.ok (fs_set fs dst (some c))

/-- Embedding of `remove_silence_segment` (`audio_silence_remover.py` lines 103–147).
External invocations are parameters recording their outcome: `probe` is
the result of `get_audio_duration` (`none` means the ffprobe invocation
itself failed and raised, which is fatal; an unparseable duration is
`some 0`), and `engine` is the outcome of the single ffmpeg invocation
performed when the plan is nonempty — `Except.ok out` is exit status 0
with the complete artifact `out` written at the temporary path, while
`Except.error junk` is a nonzero exit (`subprocess.run(..., check=True)`
raises `CalledProcessError`) with whatever partial content `junk` the
engine left at the temporary path.  On an empty plan no engine edit is
invoked; the file is duplicated with `shutil.copy` and renamed back over
itself.  `remove_silence_segment_video` (`video_silence_remover.py`
lines 89–137) has the identical structure with temporary suffix
`".nosilence.mp4"` and a video+audio filter graph driven by the same two
conditions. -/
def remove_silence_segment {α : Type} (probe : Option ℚ)
    (engine : Except (Option α) α) (fs : FS α) (input_wav : String)
    (start e : ℚ) : Except (FS α) (FS α) :=
  let tmp_out := input_wav ++ ".nosilence.wav"
  match probe with
  | none => Except.error fs
  | some total_duration =>
    if plan_segments start e total_duration = [] then
      match shutil_copy fs input_wav tmp_out with
      | Except.error g => Except.error g
      | Except.ok g => os_replace g tmp_out input_wav
    else
      match engine with
      | Except.error junk => Except.error (fs_set fs tmp_out junk)
      | Except.ok out => os_replace (fs_set fs tmp_out (some out)) tmp_out input_wav

/-! ## Helper lemmas -/

theorem pair_loop_eq_map (margin : ℚ) (ps : List (ℚ × ℚ)) :
    pair_loop margin ps =
      ps.map (fun p => (if p.1 ≠ 0 then p.1 + margin else p.1, p.2)) := by
  induction ps with
  | nil => rfl
  | cons p rest ih => cases p; simp [pair_loop, ih]

theorem normalize_length (starts ends : List ℚ) (margin : ℚ) :
    (normalize_intervals starts ends margin).length =
      min starts.length ends.length := by
  simp [normalize_intervals, pair_loop_eq_map]

theorem normalize_desc_aux (starts ends : List ℚ) (margin : ℚ)
    (hlen : starts.length = ends.length) (hm : 0 ≤ margin)
    (hsep : ∀ i, (h : i + 1 < starts.length) → ends[i] ≤ starts[i + 1]) :
    ∀ i, (h : i + 1 < (normalize_intervals starts ends margin).length) →
      ((normalize_intervals starts ends margin)[i + 1]).2 ≤
        ((normalize_intervals starts ends margin)[i]).1 := by
  intro i h
  have hL : (normalize_intervals starts ends margin).length = starts.length := by
    rw [normalize_length, hlen, min_self]
  rw [hL] at h
  simp only [normalize_intervals, pair_loop_eq_map, List.getElem_map,
    List.getElem_zip, List.getElem_reverse, List.length_reverse]
  have e1 : ends.length - 1 - (i + 1) = starts.length - 2 - i := by omega
  have e2 : starts.length - 1 - i = starts.length - 2 - i + 1 := by omega
  have hs := hsep (starts.length - 2 - i) (by omega)
  simp only [e1, e2]
  split
  · linarith
  · linarith

theorem normalize_wf_aux (starts ends : List ℚ) (margin : ℚ)
    (hlen : starts.length = ends.length)
    (hfit : ∀ i, (h : i < starts.length) → starts[i] ≤ ends[i] ∧
        (starts[i] ≠ 0 → starts[i] + margin ≤ ends[i])) :
    ∀ i, (h : i < (normalize_intervals starts ends margin).length) →
      ((normalize_intervals starts ends margin)[i]).1 ≤
        ((normalize_intervals starts ends margin)[i]).2 := by
  intro i h
  have hL : (normalize_intervals starts ends margin).length = starts.length := by
    rw [normalize_length, hlen, min_self]
  rw [hL] at h
  simp only [normalize_intervals, pair_loop_eq_map, List.getElem_map,
    List.getElem_zip, List.getElem_reverse, List.length_reverse]
  have e1 : ends.length - 1 - i = starts.length - 1 - i := by omega
  have hf := hfit (starts.length - 1 - i) (by omega)
  simp only [e1]
  split
  · next hne => exact hf.2 hne
  · exact hf.1

theorem zip_take_left {α β : Type} (l : List α) (r : List β) :
    l.zip r = (l.take r.length).zip r := by
  induction l generalizing r with
  | nil => simp
  | cons a l ih =>
    cases r with
    | nil => simp
    | cons b r => simp [ih]

theorem zip_take_right {α β : Type} (l : List α) (r : List β) :
    l.zip r = l.zip (r.take l.length) := by
  induction l generalizing r with
  | nil => simp
  | cons a l ih =>
    cases r with
    | nil => simp
    | cons b r =>
      simp only [List.length_cons, List.take_succ_cons, List.zip_cons_cons]
      rw [← ih]

theorem zip_reverse_drop {α β : Type} (l : List α) (r : List β) :
    l.reverse.zip r.reverse =
      (l.drop (l.length - r.length)).reverse.zip
        ((r.drop (r.length - l.length)).reverse) := by
  rcases le_total r.length l.length with h | h
  · have h0 : r.length - l.length = 0 := by omega
    rw [h0, List.drop_zero]
    conv_lhs => rw [zip_take_left]
    rw [List.length_reverse, List.take_reverse]
  · have h0 : l.length - r.length = 0 := by omega
    rw [h0, List.drop_zero]
    conv_lhs => rw [zip_take_right]
    rw [List.length_reverse, List.take_reverse]

/-! ## Claim theorems -/

/-- Claim C2: for start/end sequences of equal length `n` whose raw
intervals are chronological and non-overlapping, and any margin ≥ 0, the
pairing stage of `detect_silence_intervals` produces exactly `n`
intervals ordered latest-first: `intervals[i].start ≥ intervals[i+1].end`
for every valid `i`. -/
theorem normalize_desc (starts ends : List ℚ) (margin : ℚ)
    (hlen : starts.length = ends.length) (hm : 0 ≤ margin)
    (hwf : ∀ i, (h : i < starts.length) → starts[i] ≤ ends[i])
    (hsep : ∀ i, (h : i + 1 < starts.length) → ends[i] ≤ starts[i + 1]) :
    (normalize_intervals starts ends margin).length = starts.length ∧
    ∀ i, (h : i + 1 < (normalize_intervals starts ends margin).length) →
      ((normalize_intervals starts ends margin)[i]).1 ≥
        ((normalize_intervals starts ends margin)[i + 1]).2 := by
  refine ⟨by rw [normalize_length, hlen, min_self], fun i h => ?_⟩
  exact normalize_desc_aux starts ends margin hlen hm hsep i h

theorem normalize_desc_witness :
    (normalize_intervals [(2 : ℚ), 10] [(5 : ℚ), 12] 1).length =
      [(2 : ℚ), 10].length ∧
    ∀ i, (h : i + 1 < (normalize_intervals [(2 : ℚ), 10] [(5 : ℚ), 12] 1).length) →
      ((normalize_intervals [(2 : ℚ), 10] [(5 : ℚ), 12] 1)[i]).1 ≥
        ((normalize_intervals [(2 : ℚ), 10] [(5 : ℚ), 12] 1)[i + 1]).2 :=
  normalize_desc [(2 : ℚ), 10] [(5 : ℚ), 12] 1 rfl (by norm_num)
    (by
      intro i h
      simp only [List.length_cons, List.length_nil] at h
      rcases i with _ | _ | i
      · norm_num
      · norm_num
      · omega)
    (by
      intro i h
      simp only [List.length_cons, List.length_nil] at h
      rcases i with _ | i
      · norm_num
      · omega)

/-- Claim C1 (amended): under the hypotheses of the claim — equal counts,
chronological non-overlapping raw intervals, margin ≥ 0 — and the extra
hypothesis the counterexample forces, namely that the margin does not
exceed `end - start` for any raw interval with nonzero start, every
produced interval satisfies `end ≥ start` and the produced list is
monotonic (latest-first, non-overlapping). -/
theorem normalize_wellformed (starts ends : List ℚ) (margin : ℚ)
    (hlen : starts.length = ends.length) (hm : 0 ≤ margin)
    (hfit : ∀ i, (h : i < starts.length) → starts[i] ≤ ends[i] ∧
        (starts[i] ≠ 0 → starts[i] + margin ≤ ends[i]))
    (hsep : ∀ i, (h : i + 1 < starts.length) → ends[i] ≤ starts[i + 1]) :
    (∀ i, (h : i < (normalize_intervals starts ends margin).length) →
        ((normalize_intervals starts ends margin)[i]).1 ≤
          ((normalize_intervals starts ends margin)[i]).2) ∧
    (∀ i, (h : i + 1 < (normalize_intervals starts ends margin).length) →
        ((normalize_intervals starts ends margin)[i + 1]).2 ≤
          ((normalize_intervals starts ends margin)[i]).1) :=
  ⟨normalize_wf_aux starts ends margin hlen hfit,
   normalize_desc_aux starts ends margin hlen hm hsep⟩

theorem normalize_wellformed_witness :
    (∀ i, (h : i < (normalize_intervals [(2 : ℚ), 10] [(5 : ℚ), 12] 1).length) →
        ((normalize_intervals [(2 : ℚ), 10] [(5 : ℚ), 12] 1)[i]).1 ≤
          ((normalize_intervals [(2 : ℚ), 10] [(5 : ℚ), 12] 1)[i]).2) ∧
    (∀ i, (h : i + 1 < (normalize_intervals [(2 : ℚ), 10] [(5 : ℚ), 12] 1).length) →
        ((normalize_intervals [(2 : ℚ), 10] [(5 : ℚ), 12] 1)[i + 1]).2 ≤
          ((normalize_intervals [(2 : ℚ), 10] [(5 : ℚ), 12] 1)[i]).1) :=
  normalize_wellformed [(2 : ℚ), 10] [(5 : ℚ), 12] 1 rfl (by norm_num)
    (by
      intro i h
      simp only [List.length_cons, List.length_nil] at h
      rcases i with _ | _ | i
      · norm_num
      · norm_num
      · omega)
    (by
      intro i h
      simp only [List.length_cons, List.length_nil] at h
      rcases i with _ | i
      · norm_num
      · omega)

/-- Claim C1 fails as stated: the detector output with one raw interval
(start 2, end 3) is chronological and non-overlapping and the margin 2 is
≥ 0, yet — precisely because the margin exceeds the raw length 1 of this
nonzero-start silence — the produced interval is `(4, 3)`, whose end 3 is
strictly below its start 4. -/
theorem normalize_wellformed_cex :
    normalize_intervals [(2 : ℚ)] [(3 : ℚ)] 2 = [((4 : ℚ), 3)] ∧
      ((3 : ℚ) < 4) := by
  constructor
  · norm_num [normalize_intervals, pair_loop]
  · norm_num

/-- Claim C4 (amended): the pairing stage always produces
`min len(starts) len(ends)` intervals, and when the lengths differ the
elements dropped from the longer sequence are its *leading*
(earliest-emitted) elements — pairing after reversal keeps the trailing
`min` elements of each sequence — not the trailing ones the claim
names. -/
theorem pairing_truncation (starts ends : List ℚ) (margin : ℚ) :
    (normalize_intervals starts ends margin).length =
      min starts.length ends.length ∧
    normalize_intervals starts ends margin =
      normalize_intervals (starts.drop (starts.length - ends.length))
        (ends.drop (ends.length - starts.length)) margin := by
  refine ⟨normalize_length starts ends margin, ?_⟩
  unfold normalize_intervals
  rw [← zip_reverse_drop]

/-- Claim C4 fails as stated: with starts `[1, 5]` and ends `[3]` the
pairing produces `[(5, 3)]` — the trailing start 5 is kept (paired with
the end 3) and the leading start 1 is the dropped element, whereas the
claim's trailing-drop policy would pair 1 with 3. -/
theorem pairing_truncation_cex :
    normalize_intervals [(1 : ℚ), 5] [(3 : ℚ)] 0 = [((5 : ℚ), 3)] ∧
    normalize_intervals [(1 : ℚ), 5] [(3 : ℚ)] 0 ≠
      normalize_intervals ([(1 : ℚ), 5].take 1) [(3 : ℚ)] 0 := by
  constructor
  · norm_num [normalize_intervals, pair_loop]
  · norm_num [normalize_intervals, pair_loop]

/-- Claim C5: for every paired raw interval, the normalized start is the
raw start unchanged when it is zero and the raw start plus the margin
otherwise, and the end is unchanged in both cases; in particular the
spec's scenario A (starts 2.0 and 10.0, ends 5.0 and 12.0, margin 1.0)
normalizes to `[(11, 12), (3, 5)]`. -/
theorem margin_policy :
    (∀ (starts ends : List ℚ) (margin : ℚ) (i : ℕ),
      (normalize_intervals starts ends margin)[i]? =
        ((starts.reverse.zip ends.reverse)[i]?).map
          (fun p => (if p.1 ≠ 0 then p.1 + margin else p.1, p.2))) ∧
    normalize_intervals [(2 : ℚ), 10] [(5 : ℚ), 12] 1 =
      [((11 : ℚ), 12), ((3 : ℚ), 5)] := by
  constructor
  · intro starts ends margin i
    rw [normalize_intervals, pair_loop_eq_map, List.getElem?_map]
  · norm_num [normalize_intervals, pair_loop]

/-- Claim C3 (amended): for every `TimeInterval` (`0 ≤ start ≤ end`) and
total duration with `end ≤ duration` — the extra hypothesis the
counterexample forces — the excision plan has 0, 1 or 2 kept segments,
never more, and the kept lengths sum to `duration - (end - start)`,
clamped to ≥ 0.  (The segment-count bound needs no hypothesis at all.) -/
theorem plan_totality (s e d : ℚ) (h0 : 0 ≤ s) (hse : s ≤ e) (hed : e ≤ d) :
    (plan_segments s e d).length ≤ 2 ∧
    sum_kept (plan_segments s e d) = max 0 (d - (e - s)) := by
  rw [max_eq_right (by linarith : (0 : ℚ) ≤ d - (e - s))]
  unfold plan_segments sum_kept
  split_ifs with h1 h2 h2 <;> refine ⟨by simp, ?_⟩ <;> simp <;> linarith

theorem plan_totality_witness :
    (plan_segments 3 6 10).length ≤ 2 ∧
    sum_kept (plan_segments 3 6 10) = max 0 (10 - (6 - 3)) :=
  plan_totality 3 6 10 (by norm_num) (by norm_num) (by norm_num)

/-- Claim C3 fails as stated: the interval `(1, 5)` satisfies
`0 ≤ start ≤ end` and the total duration 3 is ≥ 0, but the plan keeps the
head segment `(0, 1)` of length 1 while
`duration - (end - start) = 3 - 4` clamps to 0, so the kept lengths do
not sum to the clamped value when the interval end exceeds the
duration. -/
theorem plan_totality_cex :
    (0 : ℚ) ≤ 1 ∧ (1 : ℚ) ≤ 5 ∧ (0 : ℚ) ≤ 3 ∧
    sum_kept (plan_segments 1 5 3) ≠ max 0 (3 - (5 - 1)) := by
  refine ⟨by norm_num, by norm_num, by norm_num, ?_⟩
  rw [max_eq_left (by norm_num : (3 : ℚ) - (5 - 1) ≤ 0)]
  norm_num [plan_segments, sum_kept]

/-- Claim C8: the noise parameter handed to the silencedetect invocation
is the input threshold string with the unit suffix `"dB"` present exactly
once relative to the input: appended when absent (`noise ++ "dB"`),
passed through unchanged when already present (`noise ++ []`), and the
result always ends with `"dB"`. -/
theorem noise_param_suffixes (noise : List Char) :
    noise_param noise =
      noise ++ (if ("dB".toList).isSuffixOf noise then [] else "dB".toList) ∧
    ("dB".toList).isSuffixOf (noise_param noise) = true := by
  unfold noise_param
  split_ifs with h
  · exact ⟨by simp, h⟩
  · refine ⟨rfl, ?_⟩
    rw [List.isSuffixOf_iff_suffix]
    exact List.suffix_append noise ("dB".toList)

theorem self_ne_append_nosilence (s : String) : s ≠ s ++ ".nosilence.wav" := by
  intro h
  have h2 := congrArg String.length h
  rw [String.length_append] at h2
  have h3 : (".nosilence.wav" : String).length = 14 := rfl
  omega

/-- Claim C6: for an interval with `start = 0` and `end ≥ totalDuration`
the excision plan is empty, and `remove_silence_segment` performs a
verbatim duplicate (`shutil.copy` to the temporary path, then
`os.replace` back): the call succeeds and the working file's content
under its canonical name is unchanged, for any engine outcome (no engine
edit is invoked). -/
theorem whole_file_silence {α : Type} (fs : FS α) (name : String)
    (engine : Except (Option α) α) (s e d : ℚ)
    (hs : s = 0) (hed : d ≤ e) (hex : (fs name).isSome = true) :
    plan_segments s e d = [] ∧
    (remove_silence_segment (some d) engine fs name s e).map (fun g => g name) =
      Except.ok (fs name) := by
  subst hs
  have hplan : plan_segments 0 e d = [] := by
    unfold plan_segments
    rw [if_neg (lt_irrefl 0), if_neg (not_lt.mpr hed)]
    rfl
  refine ⟨hplan, ?_⟩
  obtain ⟨c, hc⟩ := Option.isSome_iff_exists.mp hex
  have hne := self_ne_append_nosilence name
  simp only [remove_silence_segment, hplan, if_pos, shutil_copy, hc, os_replace]
  simp [fs_set, hne, Except.map, hc]

theorem whole_file_silence_witness :
    plan_segments 0 5 3 = [] ∧
    (remove_silence_segment (some 3) (Except.error none)
        (fun n => if n = "f.wav" then some 0 else none) "f.wav" 0 5).map
      (fun g => g "f.wav") =
      Except.ok ((fun n => if n = "f.wav" then some (0 : ℕ) else none) "f.wav") :=
  whole_file_silence (fun n => if n = "f.wav" then some (0 : ℕ) else none)
    "f.wav" (Except.error none) 0 5 3 rfl (by norm_num) (by simp)

/-- Claim C7: an edit step with a nonempty plan replaces the working file
under its canonical name only after the engine invocation succeeds.  On
engine failure the call raises (`Except.error`, fatal abort) and the
canonical name still holds its original content — the failure state
differs from the original file system at most at the temporary path.  On
engine success the canonical name holds exactly the engine's complete
output artifact (written at the temporary path, then renamed over the
original) and the temporary path is gone. -/
theorem edit_step_atomic {α : Type} (fs : FS α) (name : String) (s e d : ℚ)
    (out : α) (junk : Option α)
    (hplan : plan_segments s e d ≠ []) :
    (remove_silence_segment (some d) (Except.error junk) fs name s e =
        Except.error (fs_set fs (name ++ ".nosilence.wav") junk) ∧
      fs_set fs (name ++ ".nosilence.wav") junk name = fs name) ∧
    ((remove_silence_segment (some d) (Except.ok out) fs name s e).map
        (fun g => g name) = Except.ok (some out) ∧
      (remove_silence_segment (some d) (Except.ok out) fs name s e).map
        (fun g => g (name ++ ".nosilence.wav")) = Except.ok none) := by
  have hne := self_ne_append_nosilence name
  refine ⟨⟨?_, ?_⟩, ?_, ?_⟩
  · simp only [remove_silence_segment, if_neg hplan]
  · simp only [fs_set, if_neg hne]
  · simp [remove_silence_segment, hplan, os_replace, fs_set, Except.map, hne]
  · simp [remove_silence_segment, hplan, os_replace, fs_set, Except.map]

theorem edit_step_atomic_witness :
    (remove_silence_segment (some 10) (Except.error (some 9))
        (fun _ => some 0) "f.wav" 1 2 =
        Except.error (fs_set (fun _ => some (0 : ℕ))
          ("f.wav" ++ ".nosilence.wav") (some 9)) ∧
      fs_set (fun _ => some (0 : ℕ)) ("f.wav" ++ ".nosilence.wav") (some 9)
        "f.wav" = (fun _ => some (0 : ℕ)) "f.wav") ∧
    ((remove_silence_segment (some 10) (Except.ok 7)
        (fun _ => some (0 : ℕ)) "f.wav" 1 2).map (fun g => g "f.wav") =
        Except.ok (some 7) ∧
      (remove_silence_segment (some 10) (Except.ok 7)
        (fun _ => some (0 : ℕ)) "f.wav" 1 2).map
        (fun g => g ("f.wav" ++ ".nosilence.wav")) = Except.ok none) :=
  edit_step_atomic (fun _ => some (0 : ℕ)) "f.wav" 1 2 10 7 (some 9)
    (by
      have hp : plan_segments 1 2 10 = [((0 : ℚ), 1), ((2 : ℚ), 10)] := by
        norm_num [plan_segments]
      rw [hp]
      exact List.cons_ne_nil _ _)

theorem isPrefixOf_append_self (l t : List Char) : l.isPrefixOf (l ++ t) = true := by
  induction l with
  | nil => simp
  | cons c cs ih => simp [List.isPrefixOf_cons₂, ih]

theorem re_search_none_cons (m : List Char) (c : Char) (cs : List Char)
    (hpre : m.isPrefixOf (c :: cs) = false) (h : re_search_num m cs = none) :
    re_search_num m (c :: cs) = none := by
  simp [re_search_num, hpre, h]

theorem re_search_none_digits (m : List Char) (c0 : Char)
    (hc0 : isDigitOrDot c0 = false) :
    ∀ t : List Char, t.all isDigitOrDot = true →
      re_search_num (c0 :: m) t = none := by
  intro t ht
  induction t with
  | nil => rfl
  | cons c cs ih =>
    rw [List.all_cons, Bool.and_eq_true] at ht
    refine re_search_none_cons _ _ _ ?_ (ih ht.2)
    rw [List.isPrefixOf_cons₂]
    have hcc : (c0 == c) = false := by
      refine beq_eq_false_iff_ne.mpr fun hcc => ?_
      rw [hcc] at hc0
      simp [ht.1] at hc0
    rw [hcc, Bool.false_and]

theorem re_search_start_neg (t : List Char) (ht : t.all isDigitOrDot = true) :
    re_search_num silence_start_marker
      (silence_start_marker ++ (' ' :: '-' :: t)) = none := by
  have hdig : re_search_num silence_start_marker t = none := by
    rw [show silence_start_marker = 's' :: "ilence_start:".toList from rfl]
    exact re_search_none_digits _ 's' (by decide) t ht
  have hm : silence_start_marker =
      ['s', 'i', 'l', 'e', 'n', 'c', 'e', '_', 's', 't', 'a', 'r', 't', ':'] := rfl
  rw [hm] at hdig ⊢
  simp +decide [re_search_num, List.isPrefixOf_cons₂, hdig, isPySpace, isDigitOrDot]

theorem re_search_end_neg (t : List Char) (ht : t.all isDigitOrDot = true) :
    re_search_num silence_end_marker
      (silence_start_marker ++ (' ' :: '-' :: t)) = none := by
  have hdig : re_search_num silence_end_marker t = none := by
    rw [show silence_end_marker = 's' :: "ilence_end:".toList from rfl]
    exact re_search_none_digits _ 's' (by decide) t ht
  have hm : silence_end_marker =
      ['s', 'i', 'l', 'e', 'n', 'c', 'e', '_', 'e', 'n', 'd', ':'] := rfl
  have hm2 : silence_start_marker =
      ['s', 'i', 'l', 'e', 'n', 'c', 'e', '_', 's', 't', 'a', 'r', 't', ':'] := rfl
  rw [hm] at hdig ⊢
  rw [hm2]
  simp +decide [re_search_num, List.isPrefixOf_cons₂, hdig, isPySpace, isDigitOrDot]

theorem contains_sub_of_append (needle rest : List Char) :
    contains_sub needle (needle ++ rest) = true := by
  cases needle with
  | nil => cases rest <;> simp [contains_sub, List.isEmpty]
  | cons c cs =>
    simp [contains_sub, List.isPrefixOf_cons₂, isPrefixOf_append_self]

/-- Claim C9: the Silence Event Parser is not total over arbitrary
diagnostic text: on the line `"silence_start: 1.2.3"` the extraction
regex matches (capturing the digits-and-dots token `"1.2.3"`), the float
conversion of that token raises `ValueError` (two dots), and the
exception propagates out of `detect_silence_intervals` unhandled
(`Except.error`) instead of the line being ignored. -/
theorem parse_not_total :
    re_search_num silence_start_marker ("silence_start: 1.2.3".toList) =
      some ("1.2.3".toList) ∧
    pyFloat ("1.2.3".toList) = none ∧
    detect_silence_intervals ["silence_start: 1.2.3".toList] 1 =
      Except.error () :=
  ⟨by decide, by decide, by rfl⟩

/-- Claim C10 fails as stated: on the line `"silence_start: -0.5"` the
parser records nothing at all — the extraction pattern cannot match past
the minus sign (which is neither whitespace nor in `[0-9.]`), so the
line is skipped; in particular the starts list is not `[0.5]` as the
claim asserts. -/
theorem negative_parse_cex :
    parse_silence_lines ["silence_start: -0.5".toList] = Except.ok ([], []) ∧
    parse_silence_lines ["silence_start: -0.5".toList] ≠
      Except.ok ([(1 : ℚ) / 2], []) := by
  have h : parse_silence_lines ["silence_start: -0.5".toList] =
      Except.ok ([], []) := by rfl
  refine ⟨h, ?_⟩
  rw [h]
  simp

/-- Claim C10 (amended): for every input line in which the marker is
followed by a negative number (whitespace, a minus sign, then any
digits-and-dots tail), the parser skips the line entirely — it records
neither the unsigned tail nor the negative value — because the
extraction pattern matches only digits and dots and cannot match across
the minus sign. -/
theorem negative_line_skipped (t : List Char) (ht : t.all isDigitOrDot = true) :
    parse_silence_lines [silence_start_marker ++ (' ' :: '-' :: t)] =
      Except.ok ([], []) := by
  have h1 := re_search_start_neg t ht
  have h2 := re_search_end_neg t ht
  simp only [parse_silence_lines, List.foldlM, process_line, h1, h2,
    contains_sub_of_append]
  cases contains_sub silence_end_marker (silence_start_marker ++ (' ' :: '-' :: t)) <;>
    rfl

theorem negative_line_skipped_witness :
    ("0.5".toList).all isDigitOrDot = true ∧
    parse_silence_lines [silence_start_marker ++ (' ' :: '-' :: "0.5".toList)] =
      Except.ok ([], []) :=
  ⟨by decide, negative_line_skipped ("0.5".toList) (by decide)⟩

end SilenceRemover
